import Mathlib

/-!
Verification of the batch dispatch and aggregation core of the firenotes
page-scraping service.

The scraping application itself (`patchright-app.py`) is not present in the
repository snapshot; only its unit tests (`tests/test_patchright_app.py`) are.
The definitions below are therefore modelled from the specification of the
batch orchestration layer, with names and observable behaviour constrained by
the test suite (model names `MultipleUrlModel`, `UrlModel`, endpoint name
`scrape_page_endpoint`, field names `url`, `urls`, `wait_after_load`,
`timeout`, `headers`, defaults `wait_after_load = 0`, `timeout = 15000`,
`headers = none`, and the single-result-is-bare-record / batch-result-is-list
shape).
-/

namespace PatchrightApp

/-- A header mapping, modelled as an association list of name/value pairs. -/
abbrev Headers := List (String × String)

/-- Modelled from the spec: `PerUrlRequest` (named `UrlModel` in the tests,
from the missing `patchright-app.py`): one fully-resolved scrape request, with
a required url, a non-negative wait, a positive timeout and a resolved
(never absent) header mapping. -/
structure UrlModel where
  url : String
  wait_after_load : Int
  timeout : Int
  headers : Headers
deriving DecidableEq, Inhabited

/-- Modelled from the spec: `BatchRequest` (named `MultipleUrlModel` in the
tests, from the missing `patchright-app.py`): the raw incoming request, which
carries either one `url` or an ordered `urls` sequence, plus shared
`wait_after_load`, `timeout` and optional `headers`.  Defaults follow the
tests and the spec: wait 0, timeout 15000, headers absent. -/
structure MultipleUrlModel where
  url : Option String := none
  urls : Option (List String) := none
  wait_after_load : Int := 0
  timeout : Int := 15000
  headers : Option Headers := none
deriving DecidableEq, Inhabited

/-- Modelled from the spec: the validation failure taxonomy of the
normalization layer of the missing `patchright-app.py`. -/
inductive ValidationError where
  | emptyUrls : ValidationError
  | invalidUrl : ValidationError
  | invalidTimeout : ValidationError
  | invalidWait : ValidationError
  | missingUrl : ValidationError
deriving DecidableEq, Inhabited

/-- Modelled from the spec: `FetchResult`, the success outcome of one
single-page fetch invocation of the missing `patchright-app.py`
(`content`, `pageStatusCode`, `processingTime` as in the tests; the
measured duration is modelled as an integer number of microseconds). -/
structure FetchResult where
  content : String
  pageStatusCode : Int
  processingTime : Int
deriving DecidableEq, Inhabited

/-- Outcome of one single-page fetch invocation: a `FetchResult` on success,
or a distinguishable per-URL failure carrying the URL and a reason. -/
inductive FetchOutcome where
  | ok : FetchResult → FetchOutcome
  | fail : String → String → FetchOutcome
deriving DecidableEq, Inhabited

/-- Modelled from the spec: `BatchResult` of the missing
`patchright-app.py` — a bare record for a single-URL request, an ordered
sequence for a multi-URL request. -/
inductive BatchResult where
  | single : FetchOutcome → BatchResult
  | batch : List FetchOutcome → BatchResult
deriving DecidableEq, Inhabited

/-- Modelled from the spec: a URL "parses as a valid URL" when it is an
http or https URL with a nonempty remainder after the scheme (the missing
`patchright-app.py` delegates this to pydantic's `HttpUrl`). -/
def isValidUrl (u : String) : Bool :=
  (u.data.take 7 == "http://".data && 7 < u.data.length) ||
    (u.data.take 8 == "https://".data && 8 < u.data.length)

/-- Modelled from the spec: default header resolution — an absent header
mapping resolves to the empty mapping. -/
def resolveHeaders (h : Option Headers) : Headers :=
  h.getD []

/-- Modelled from the spec: construction of one `PerUrlRequest` from a batch
request and one of its URLs, combining that URL with the batch's shared
wait, timeout and (resolved) headers. -/
def mkUrlModel (req : MultipleUrlModel) (u : String) : UrlModel :=
  { url := u
    wait_after_load := req.wait_after_load
    timeout := req.timeout
    headers := resolveHeaders req.headers }

/-- Modelled from the spec: `normalize(BatchRequest) -> sequence of
PerUrlRequest` of the missing `patchright-app.py`.  Fails with a
`ValidationError` when the URL sequence is empty, a URL fails to parse,
the timeout is non-positive or the wait is negative; otherwise expands the
multi-URL variant in input order and the single-URL variant to a one-element
sequence. -/
def normalize (req : MultipleUrlModel) :
    Except ValidationError (List UrlModel) :=
  if req.timeout ≤ 0 then .error .invalidTimeout
  else if req.wait_after_load < 0 then .error .invalidWait
  else
    match req.urls with
    | some us =>
        if us.isEmpty then .error .emptyUrls
        else if us.all isValidUrl then .ok (us.map (mkUrlModel req))
        else .error .invalidUrl
    | none =>
        match req.url with
        | some u =>
            if isValidUrl u then .ok [mkUrlModel req u]
            else .error .invalidUrl
        | none => .error .missingUrl

/-- Modelled from the spec: the batch dispatcher of the missing
`patchright-app.py`, indexing from `k`: each per-URL request is paired,
by value, with its original position, and the fetch operation is invoked
once for it. -/
def dispatchFrom (scrape_page : UrlModel → FetchOutcome) :
    Nat → List UrlModel → List (Nat × FetchOutcome)
  | _, [] => []
  | k, m :: ms => (k, scrape_page m) :: dispatchFrom scrape_page (k + 1) ms

/-- Modelled from the spec: `dispatch(sequence of PerUrlRequest) ->
sequence of (index, outcome)` of the missing `patchright-app.py`. -/
def dispatch (scrape_page : UrlModel → FetchOutcome)
    (reqs : List UrlModel) : List (Nat × FetchOutcome) :=
  dispatchFrom scrape_page 0 reqs

/-- Modelled from the spec: the result aggregator of the missing
`patchright-app.py` — reassembles completed (index, outcome) pairs into
output order strictly by the recorded index, not by completion order. -/
def aggregate (n : Nat) (completed : List (Nat × FetchOutcome)) :
    List FetchOutcome :=
  (List.range n).filterMap
    (fun i => (completed.find? (fun p => p.1 == i)).map Prod.snd)

/-- The observable behaviour of one endpoint call: the returned batch result
(or validation error) together with the list of arguments passed to the
single-page fetch operation, in dispatch order. -/
structure EndpointTrace where
  result : Except ValidationError BatchResult
  fetchCalls : List UrlModel
deriving Inhabited

/-- Modelled from the spec: `scrape_page_endpoint` of the missing
`patchright-app.py` — normalize, dispatch, aggregate, then rewrap: a
multi-URL request yields an ordered sequence of outcomes, a single-URL
request yields the lone outcome as a bare record. -/
def scrape_page_endpoint (scrape_page : UrlModel → FetchOutcome)
    (req : MultipleUrlModel) : EndpointTrace :=
  match normalize req with
  | .error e => { result := .error e, fetchCalls := [] }
  | .ok reqs =>
      match req.urls with
      | some _ =>
          { result :=
              .ok (.batch (aggregate reqs.length (dispatch scrape_page reqs)))
            fetchCalls := reqs }
      | none =>
          match reqs with
          | [m] => { result := .ok (.single (scrape_page m)), fetchCalls := [m] }
          | _ => { result := .error .missingUrl, fetchCalls := [] }

/-! ### Structural lemmas about normalization -/

/-- Evaluation of `normalize` on the multi-URL variant. -/
theorem normalize_batch_eq {req : MultipleUrlModel} {us : List String}
    (hus : req.urls = some us) :
    normalize req =
      if req.timeout ≤ 0 then .error .invalidTimeout
      else if req.wait_after_load < 0 then .error .invalidWait
      else if us.isEmpty then .error .emptyUrls
      else if us.all isValidUrl then .ok (us.map (mkUrlModel req))
      else .error .invalidUrl := by
  unfold normalize
  rw [hus]

/-- Evaluation of `normalize` on the single-URL variant. -/
theorem normalize_single_eq {req : MultipleUrlModel} {u : String}
    (hus : req.urls = none) (hu : req.url = some u) :
    normalize req =
      if req.timeout ≤ 0 then .error .invalidTimeout
      else if req.wait_after_load < 0 then .error .invalidWait
      else if isValidUrl u then .ok [mkUrlModel req u]
      else .error .invalidUrl := by
  unfold normalize
  rw [hus, hu]

/-- Normalization of a multi-URL request succeeds only by mapping
`mkUrlModel` over the input URL sequence, in order. -/
theorem normalize_ok_batch {req : MultipleUrlModel} {us : List String}
    {reqs : List UrlModel} (hus : req.urls = some us)
    (hn : normalize req = .ok reqs) : reqs = us.map (mkUrlModel req) := by
  rw [normalize_batch_eq hus] at hn
  split at hn
  · exact absurd hn (by simp)
  split at hn
  · exact absurd hn (by simp)
  split at hn
  · exact absurd hn (by simp)
  split at hn
  · exact (Except.ok.inj hn).symm
  · exact absurd hn (by simp)

/-- Normalization of a multi-URL request succeeds only when every input URL
is valid. -/
theorem normalize_ok_batch_valid {req : MultipleUrlModel} {us : List String}
    {reqs : List UrlModel} (hus : req.urls = some us)
    (hn : normalize req = .ok reqs) : ∀ u ∈ us, isValidUrl u = true := by
  rw [normalize_batch_eq hus] at hn
  split at hn
  · exact absurd hn (by simp)
  split at hn
  · exact absurd hn (by simp)
  split at hn
  · exact absurd hn (by simp)
  split at hn
  · next hall => exact List.all_eq_true.mp hall
  · exact absurd hn (by simp)

/-- Normalization of a single-URL request succeeds only with the one-element
expansion of a present, valid `url` field. -/
theorem normalize_ok_single {req : MultipleUrlModel} {reqs : List UrlModel}
    (hus : req.urls = none) (hn : normalize req = .ok reqs) :
    ∃ u, req.url = some u ∧ isValidUrl u = true ∧
      reqs = [mkUrlModel req u] := by
  match hu : req.url with
  | some u =>
      rw [normalize_single_eq hus hu] at hn
      split at hn
      · exact absurd hn (by simp)
      split at hn
      · exact absurd hn (by simp)
      split at hn
      · next hv => exact ⟨u, rfl, hv, (Except.ok.inj hn).symm⟩
      · exact absurd hn (by simp)
  | none =>
      unfold normalize at hn
      rw [hus, hu] at hn
      split at hn
      · exact absurd hn (by simp)
      split at hn
      · exact absurd hn (by simp)
      exact absurd hn (by simp)

/-- Normalization succeeds only when the shared timeout is positive and the
shared wait is non-negative. -/
theorem normalize_ok_guards {req : MultipleUrlModel} {reqs : List UrlModel}
    (hn : normalize req = .ok reqs) :
    0 < req.timeout ∧ 0 ≤ req.wait_after_load := by
  unfold normalize at hn
  split at hn
  · exact absurd hn (by simp)
  split at hn
  · exact absurd hn (by simp)
  next ht hw => exact ⟨by omega, by omega⟩

/-- On a multi-URL request that normalizes, the endpoint dispatches exactly
the normalized per-URL requests and returns the aggregated batch. -/
theorem endpoint_batch {f : UrlModel → FetchOutcome} {req : MultipleUrlModel}
    {us : List String} {reqs : List UrlModel}
    (hus : req.urls = some us) (hn : normalize req = .ok reqs) :
    scrape_page_endpoint f req =
      { result := .ok (.batch (aggregate reqs.length (dispatch f reqs)))
        fetchCalls := reqs } := by
  unfold scrape_page_endpoint
  rw [hn, hus]

/-! ### Structural lemmas about dispatch and aggregation -/

/-- Membership in the dispatcher output: each recorded pair is the index of a
request together with the fetch outcome for exactly that request. -/
theorem mem_dispatchFrom {f : UrlModel → FetchOutcome} {k i : Nat}
    {y : FetchOutcome} {rs : List UrlModel} :
    (i, y) ∈ dispatchFrom f k rs ↔
      ∃ j, j < rs.length ∧ i = k + j ∧ y = f (rs.getD j default) := by
  induction rs generalizing k with
  | nil => simp [dispatchFrom]
  | cons m ms ih =>
      simp only [dispatchFrom, List.mem_cons, ih, Prod.mk.injEq]
      constructor
      · rintro (⟨hik, hy⟩ | ⟨j, hj, hij, hy⟩)
        · exact ⟨0, by simp, by omega, by simpa using hy⟩
        · exact ⟨j + 1, by simpa using hj, by omega, by simpa using hy⟩
      · rintro ⟨j, hj, hij, hy⟩
        cases j with
        | zero => exact Or.inl ⟨by omega, by simpa using hy⟩
        | succ j' =>
            exact Or.inr ⟨j', by simpa using hj, by omega, by simpa using hy⟩

/-- In any completion-order permutation of the dispatcher output, looking up
index `i` finds exactly the outcome of the fetch for the `i`-th request. -/
theorem find?_perm_dispatch {f : UrlModel → FetchOutcome}
    {reqs : List UrlModel} {completed : List (Nat × FetchOutcome)} {i : Nat}
    (hperm : completed.Perm (dispatch f reqs)) (hi : i < reqs.length) :
    completed.find? (fun p => p.1 == i) =
      some (i, f (reqs.getD i default)) := by
  have hmem : (i, f (reqs.getD i default)) ∈ completed :=
    hperm.mem_iff.mpr (mem_dispatchFrom.mpr ⟨i, hi, (Nat.zero_add i).symm, rfl⟩)
  have hsome : (completed.find? (fun p => p.1 == i)).isSome := by
    rw [List.find?_isSome]
    exact ⟨_, hmem, by simp⟩
  obtain ⟨q, hq⟩ := Option.isSome_iff_exists.mp hsome
  have hqi : q.1 = i := by simpa using List.find?_some hq
  have hqd : (q.1, q.2) ∈ dispatch f reqs := by
    rw [Prod.mk.eta]
    exact hperm.mem_iff.mp (List.mem_of_find?_eq_some hq)
  obtain ⟨j, hj, hij, hy⟩ := mem_dispatchFrom.mp hqd
  have hji : j = i := by omega
  rw [hq]
  have : q = (i, f (reqs.getD i default)) := by
    rw [← Prod.mk.eta (p := q), hqi, hy, hji]
  rw [this]

/-- A `filterMap` whose function is total on the list is a `map`. -/
theorem filterMap_eq_map_of_forall {α β : Type} {l : List α}
    {p : α → Option β} {g : α → β} (h : ∀ x ∈ l, p x = some (g x)) :
    l.filterMap p = l.map g := by
  induction l with
  | nil => simp
  | cons a t ih =>
      rw [List.filterMap_cons, h a (by simp), List.map_cons,
        ih (fun x hx => h x (List.mem_cons_of_mem a hx))]

/-- Reading a list through `getD` along `range` its length is the list
itself, mapped. -/
theorem range_map_getD {α β : Type} [Inhabited α] (l : List α) (f : α → β) :
    (List.range l.length).map (fun i => f (l.getD i default)) = l.map f := by
  apply List.ext_getElem
  · simp
  · intro i h1 h2
    simp only [List.getElem_map, List.getElem_range]
    rw [List.getD_eq_getElem]

/-- Indexing a mapped list with any fallback values, in bounds. -/
theorem getD_map {α β : Type} (g : α → β) (l : List α) (d : α) (e : β)
    {k : Nat} (hk : k < l.length) :
    (l.map g).getD k e = g (l.getD k d) := by
  rw [List.getD_eq_getElem _ _ (by simpa using hk), List.getElem_map,
    List.getD_eq_getElem _ _ hk]

/-- Aggregation undoes any completion-order permutation of the dispatcher
output: the aggregate is exactly the input-ordered list of fetch outcomes. -/
theorem aggregate_perm {f : UrlModel → FetchOutcome} {reqs : List UrlModel}
    {completed : List (Nat × FetchOutcome)}
    (hperm : completed.Perm (dispatch f reqs)) :
    aggregate reqs.length completed = reqs.map f := by
  unfold aggregate
  rw [filterMap_eq_map_of_forall
    (g := fun i => f (reqs.getD i default))
    (fun i hi => by
      rw [find?_perm_dispatch hperm (List.mem_range.mp hi)]
      rfl)]
  exact range_map_getD reqs f

/-- On a single-URL request that normalizes, the endpoint performs exactly
one fetch invocation and returns its outcome as a bare record. -/
theorem endpoint_single {f : UrlModel → FetchOutcome} {req : MultipleUrlModel}
    {u : String} {reqs : List UrlModel}
    (hus : req.urls = none) (hu : req.url = some u)
    (hn : normalize req = .ok reqs) :
    scrape_page_endpoint f req =
      { result := .ok (.single (f (mkUrlModel req u)))
        fetchCalls := [mkUrlModel req u] } := by
  obtain ⟨v, hv', hvalid, hr⟩ := normalize_ok_single hus hn
  have hvu : v = u := by
    rw [hu] at hv'
    exact (Option.some.inj hv').symm
  subst hvu
  unfold scrape_page_endpoint
  rw [hn, hus, hr]

/-- Every argument the endpoint passes to the fetch operation is a
`mkUrlModel` construction from the request, over a valid URL, with the
normalization guards satisfied. -/
theorem fetchCalls_mem {f : UrlModel → FetchOutcome} {req : MultipleUrlModel}
    {m : UrlModel} (hm : m ∈ (scrape_page_endpoint f req).fetchCalls) :
    ∃ u, m = mkUrlModel req u ∧ isValidUrl u = true ∧
      0 < req.timeout ∧ 0 ≤ req.wait_after_load := by
  match hn : normalize req with
  | .error e =>
      unfold scrape_page_endpoint at hm
      rw [hn] at hm
      simp at hm
  | .ok reqs =>
      obtain ⟨hT, hW⟩ := normalize_ok_guards hn
      match hus : req.urls with
      | some us =>
          rw [endpoint_batch hus hn] at hm
          rw [normalize_ok_batch hus hn] at hm
          simp only [List.mem_map] at hm
          obtain ⟨u, hu, hmu⟩ := hm
          exact ⟨u, hmu.symm, normalize_ok_batch_valid hus hn u hu, hT, hW⟩
      | none =>
          obtain ⟨u, hu, hvalid, hr⟩ := normalize_ok_single hus hn
          rw [endpoint_single hus hu hn] at hm
          simp at hm
          exact ⟨u, hm, hvalid, hT, hW⟩

/-! ### Concrete material for the witnesses -/

/-- A demonstration fetch operation used by the concrete witnesses. -/
def demoFetch (m : UrlModel) : FetchOutcome :=
  .ok { content := m.url
        pageStatusCode := 200
        processingTime := m.url.length }

/-- A demonstration fetch operation that fails on one specific URL. -/
def demoFetchFail (m : UrlModel) : FetchOutcome :=
  if m.url == "https://example.com/second" then .fail m.url "network error"
  else demoFetch m

/-- The input URLs of the regression test for the variable-shadowing bug. -/
def demoUrls : List String :=
  ["https://example.com/first", "https://example.com/second",
    "https://example.com/third"]

/-- The multi-URL batch request of the regression test. -/
def demoBatchReq : MultipleUrlModel :=
  { urls := some demoUrls
    wait_after_load := 100
    timeout := 30000
    headers := some [("User-Agent", "Test")] }

/-- The expansion of `demoBatchReq` into per-URL requests. -/
def demoReqs : List UrlModel :=
  demoUrls.map (mkUrlModel demoBatchReq)

/-- A completion-order permutation (reverse order) of the dispatched
outcomes for `demoBatchReq`. -/
def demoCompleted : List (Nat × FetchOutcome) :=
  (dispatch demoFetch demoReqs).reverse

/-- The single-URL request of the single-path test. -/
def demoSingleReq : MultipleUrlModel :=
  { url := some "https://example.com/single"
    wait_after_load := 500
    timeout := 20000 }

/-- The two-URL batch with explicitly absent headers. -/
def demoHeaderlessReq : MultipleUrlModel :=
  { urls := some ["https://example.com/a", "https://example.com/b"]
    headers := none }

/-- A batch whose `urls` sequence has length one. -/
def demoOneUrlBatchReq : MultipleUrlModel :=
  { urls := some ["https://example.com/only"] }

/-- A batch with an empty `urls` sequence. -/
def demoBadReq : MultipleUrlModel :=
  { urls := some [] }

/-! ### The claims -/

/-- C1: for every multi-URL batch of N ≥ 2 distinct URLs that normalizes
successfully, the k-th dispatched per-URL request's `url` field equals the
k-th input URL for every k, and never equals a different entry's URL — no
shared loop-variable capture can make dispatched requests carry another
entry's URL. -/
theorem parameter_isolation (f : UrlModel → FetchOutcome)
    (req : MultipleUrlModel) (us : List String) (reqs : List UrlModel)
    (hus : req.urls = some us) (hlen : 2 ≤ us.length) (hnd : us.Nodup)
    (hn : normalize req = .ok reqs) :
    (scrape_page_endpoint f req).fetchCalls = reqs ∧
    ∀ k, k < us.length →
      (reqs.getD k default).url = us.getD k "" ∧
      ∀ j, j < us.length → j ≠ k →
        (reqs.getD k default).url ≠ us.getD j "" := by
  have hr := normalize_ok_batch hus hn
  refine ⟨by rw [endpoint_batch hus hn], ?_⟩
  intro k hk
  have hurl : (reqs.getD k default).url = us.getD k "" := by
    rw [hr, getD_map (mkUrlModel req) us "" default hk]
    rfl
  refine ⟨hurl, ?_⟩
  intro j hj hjk heq
  rw [hurl] at heq
  rw [List.getD_eq_getElem _ _ hk, List.getD_eq_getElem _ _ hj] at heq
  exact hjk ((hnd.getElem_inj_iff).mp heq).symm

/-- Witness for C1 at the regression-test batch of three distinct URLs. -/
theorem parameter_isolation_witness :
    (scrape_page_endpoint demoFetch demoBatchReq).fetchCalls = demoReqs ∧
    ∀ k, k < demoUrls.length →
      (demoReqs.getD k default).url = demoUrls.getD k "" ∧
      ∀ j, j < demoUrls.length → j ≠ k →
        (demoReqs.getD k default).url ≠ demoUrls.getD j "" :=
  parameter_isolation demoFetch demoBatchReq demoUrls demoReqs rfl
    (by decide) (by decide) rfl

/-- C2: the aggregated result sequence is ordered by input position — for
every completion-order permutation of the dispatched outcomes, the i-th
aggregated element is the fetch outcome for the i-th input URL. -/
theorem order_preservation (f : UrlModel → FetchOutcome)
    (req : MultipleUrlModel) (us : List String) (reqs : List UrlModel)
    (completed : List (Nat × FetchOutcome))
    (hus : req.urls = some us) (hn : normalize req = .ok reqs)
    (hperm : completed.Perm (dispatch f reqs)) :
    aggregate reqs.length completed = reqs.map f ∧
    ∀ i, i < us.length →
      (aggregate reqs.length completed).getD i default =
        f (mkUrlModel req (us.getD i "")) := by
  have hagg := aggregate_perm hperm
  refine ⟨hagg, ?_⟩
  intro i hi
  have hr := normalize_ok_batch hus hn
  rw [hagg, hr, List.map_map,
    getD_map (f ∘ mkUrlModel req) us "" default hi]
  rfl

/-- Witness for C2 at the regression-test batch, with the dispatched
outcomes completing in reverse order. -/
theorem order_preservation_witness :
    aggregate demoReqs.length demoCompleted = demoReqs.map demoFetch ∧
    ∀ i, i < demoUrls.length →
      (aggregate demoReqs.length demoCompleted).getD i default =
        demoFetch (mkUrlModel demoBatchReq (demoUrls.getD i "")) :=
  order_preservation demoFetch demoBatchReq demoUrls demoReqs demoCompleted
    rfl rfl (by decide)

/-- C3: the result shape follows the request variant — a request with a
single `url` yields a bare result record, a request with a `urls` sequence
of length N yields a sequence of length N, even when N = 1. -/
theorem single_vs_batch_shape (f : UrlModel → FetchOutcome)
    (req : MultipleUrlModel) :
    (∀ u reqs, req.urls = none → req.url = some u →
      normalize req = .ok reqs →
      (scrape_page_endpoint f req).result =
        .ok (.single (f (mkUrlModel req u)))) ∧
    (∀ us reqs, req.urls = some us → normalize req = .ok reqs →
      ∃ rs, (scrape_page_endpoint f req).result = .ok (.batch rs) ∧
        rs.length = us.length) := by
  constructor
  · intro u reqs hus hu hn
    rw [endpoint_single hus hu hn]
  · intro us reqs hus hn
    refine ⟨reqs.map f, ?_, ?_⟩
    · have hagg : aggregate reqs.length (dispatch f reqs) = reqs.map f :=
        aggregate_perm (List.Perm.refl _)
      rw [endpoint_batch hus hn]
      simp [hagg]
    · rw [normalize_ok_batch hus hn]
      simp

/-- Witness for C3: the concrete single-URL request returns a bare record,
and the concrete one-element batch returns a one-element sequence. -/
theorem single_vs_batch_shape_witness :
    (scrape_page_endpoint demoFetch demoSingleReq).result =
      .ok (.single (demoFetch
        (mkUrlModel demoSingleReq "https://example.com/single"))) ∧
    ∃ rs, (scrape_page_endpoint demoFetch demoOneUrlBatchReq).result =
      .ok (.batch rs) ∧ rs.length = 1 :=
  ⟨(single_vs_batch_shape demoFetch demoSingleReq).1
      "https://example.com/single"
      [mkUrlModel demoSingleReq "https://example.com/single"] rfl rfl rfl,
    (single_vs_batch_shape demoFetch demoOneUrlBatchReq).2
      ["https://example.com/only"]
      [mkUrlModel demoOneUrlBatchReq "https://example.com/only"] rfl rfl⟩

/-- C4: a multi-URL batch of N URLs invokes the fetch operation exactly N
times — once per requested URL, in order — and the returned sequence has
length exactly N, its i-th entry being the outcome for the i-th request:
nothing duplicated, truncated or dropped. -/
theorem batch_invocation_count (f : UrlModel → FetchOutcome)
    (req : MultipleUrlModel) (us : List String) (reqs : List UrlModel)
    (hus : req.urls = some us) (hn : normalize req = .ok reqs) :
    (scrape_page_endpoint f req).fetchCalls = reqs ∧
    reqs.length = us.length ∧
    (∀ k, k < us.length →
      reqs.getD k default = mkUrlModel req (us.getD k "")) ∧
    (scrape_page_endpoint f req).result = .ok (.batch (reqs.map f)) ∧
    (reqs.map f).length = us.length := by
  have hr := normalize_ok_batch hus hn
  refine ⟨by rw [endpoint_batch hus hn], by rw [hr]; simp, ?_, ?_,
    by rw [hr]; simp⟩
  · intro k hk
    rw [hr]
    exact getD_map (mkUrlModel req) us "" default hk
  · have hagg : aggregate reqs.length (dispatch f reqs) = reqs.map f :=
      aggregate_perm (List.Perm.refl _)
    rw [endpoint_batch hus hn]
    simp [hagg]

/-- Witness for C4 at the regression-test batch of three URLs. -/
theorem batch_invocation_count_witness :
    (scrape_page_endpoint demoFetch demoBatchReq).fetchCalls = demoReqs ∧
    demoReqs.length = demoUrls.length ∧
    (∀ k, k < demoUrls.length →
      demoReqs.getD k default = mkUrlModel demoBatchReq (demoUrls.getD k "")) ∧
    (scrape_page_endpoint demoFetch demoBatchReq).result =
      .ok (.batch (demoReqs.map demoFetch)) ∧
    (demoReqs.map demoFetch).length = demoUrls.length :=
  batch_invocation_count demoFetch demoBatchReq demoUrls demoReqs rfl rfl

/-- C5: if the fetch invocation for URL k of a multi-URL batch fails, the
batch still returns a full-length sequence with the per-URL failure at
index k and the correct outcomes at every other index. -/
theorem partial_failure_containment (f : UrlModel → FetchOutcome)
    (req : MultipleUrlModel) (us : List String) (reqs : List UrlModel)
    (k : Nat) (url reason : String)
    (hus : req.urls = some us) (hn : normalize req = .ok reqs)
    (hk : k < us.length)
    (hfail : f (reqs.getD k default) = .fail url reason) :
    ∃ rs, (scrape_page_endpoint f req).result = .ok (.batch rs) ∧
      rs.length = us.length ∧
      rs.getD k default = .fail url reason ∧
      ∀ i, i < us.length → i ≠ k →
        rs.getD i default = f (reqs.getD i default) := by
  have hr := normalize_ok_batch hus hn
  have hlen : reqs.length = us.length := by rw [hr]; simp
  refine ⟨reqs.map f, ?_, by simp [hlen], ?_, ?_⟩
  · have hagg : aggregate reqs.length (dispatch f reqs) = reqs.map f :=
      aggregate_perm (List.Perm.refl _)
    rw [endpoint_batch hus hn]
    simp [hagg]
  · rw [getD_map f reqs default default (by omega), hfail]
  · intro i hi _
    rw [getD_map f reqs default default (by omega)]

/-- Witness for C5: in the regression-test batch, the fetch operation that
fails on the second URL leaves the first and third outcomes intact. -/
theorem partial_failure_containment_witness :
    ∃ rs, (scrape_page_endpoint demoFetchFail demoBatchReq).result =
      .ok (.batch rs) ∧
      rs.length = demoUrls.length ∧
      rs.getD 1 default = .fail "https://example.com/second" "network error" ∧
      ∀ i, i < demoUrls.length → i ≠ 1 →
        rs.getD i default = demoFetchFail (demoReqs.getD i default) :=
  partial_failure_containment demoFetchFail demoBatchReq demoUrls demoReqs
    1 "https://example.com/second" "network error" rfl rfl (by decide)
    (by decide)

/-- C6: on the multi-URL variant, normalization fails with a validation
error exactly when the URL sequence is empty, some URL fails to parse, the
timeout is non-positive or the wait is negative; and whenever normalization
fails, the endpoint performs zero fetch invocations. -/
theorem validation_error_iff (f : UrlModel → FetchOutcome)
    (req : MultipleUrlModel) (us : List String) (hus : req.urls = some us) :
    ((∃ e, normalize req = .error e) ↔
      (us = [] ∨ (∃ u ∈ us, isValidUrl u = false) ∨
        req.timeout ≤ 0 ∨ req.wait_after_load < 0)) ∧
    (∀ e, normalize req = .error e →
      (scrape_page_endpoint f req).fetchCalls = []) := by
  constructor
  · rw [normalize_batch_eq hus]
    by_cases ht : req.timeout ≤ 0
    · simp [ht]
    by_cases hw : req.wait_after_load < 0
    · simp [ht, hw]
    by_cases he : us.isEmpty
    · simp [ht, hw, he, List.isEmpty_iff.mp he]
    by_cases ha : us.all isValidUrl
    · constructor
      · intro hex
        obtain ⟨e, he'⟩ := hex
        rw [if_neg ht, if_neg hw, if_neg he, if_pos ha] at he'
        exact absurd he' (by simp)
      · rintro (rfl | ⟨u, hu, hbad⟩ | h | h)
        · exact absurd (by simp : ([] : List String).isEmpty = true) he
        · have := List.all_eq_true.mp ha u hu
          rw [hbad] at this
          exact absurd this (by simp)
        · exact absurd h ht
        · exact absurd h hw
    · constructor
      · intro _
        refine Or.inr (Or.inl ?_)
        have ha' : ¬ ∀ u ∈ us, isValidUrl u = true := fun hcon =>
          ha (List.all_eq_true.mpr hcon)
        push_neg at ha'
        obtain ⟨u, hu, hbad⟩ := ha'
        exact ⟨u, hu, by simpa using hbad⟩
      · intro _
        rw [if_neg ht, if_neg hw, if_neg he, if_neg ha]
        exact ⟨.invalidUrl, rfl⟩
  · intro e he'
    unfold scrape_page_endpoint
    rw [he']

/-- Witness for C6 at the empty-`urls` batch. -/
theorem validation_error_iff_witness :
    ((∃ e, normalize demoBadReq = .error e) ↔
      (([] : List String) = [] ∨
        (∃ u ∈ ([] : List String), isValidUrl u = false) ∨
        demoBadReq.timeout ≤ 0 ∨ demoBadReq.wait_after_load < 0)) ∧
    (∀ e, normalize demoBadReq = .error e →
      (scrape_page_endpoint demoFetch demoBadReq).fetchCalls = []) :=
  validation_error_iff demoFetch demoBadReq [] rfl

/-- C7: when the batch's headers field is absent, every dispatched per-URL
request carries the empty header mapping. -/
theorem default_header_resolution (f : UrlModel → FetchOutcome)
    (req : MultipleUrlModel) (hh : req.headers = none) :
    ∀ m ∈ (scrape_page_endpoint f req).fetchCalls, m.headers = [] := by
  intro m hm
  obtain ⟨u, hmu, _, _, _⟩ := fetchCalls_mem hm
  rw [hmu]
  show resolveHeaders req.headers = []
  rw [hh]
  rfl

/-- Witness for C7: the first dispatched request of the headerless
two-URL batch carries the empty mapping. -/
theorem default_header_resolution_witness :
    (mkUrlModel demoHeaderlessReq "https://example.com/a").headers = [] :=
  default_header_resolution demoFetch demoHeaderlessReq rfl
    (mkUrlModel demoHeaderlessReq "https://example.com/a") (by decide)

/-- C8: every expanded per-URL request of a multi-URL batch carries the
batch's shared parameters unchanged — its wait, timeout and (resolved)
headers equal the batch-level values. -/
theorem shared_parameter_propagation (f : UrlModel → FetchOutcome)
    (req : MultipleUrlModel) (us : List String) (reqs : List UrlModel)
    (hus : req.urls = some us) (hn : normalize req = .ok reqs) :
    ∀ i, i < us.length →
      (reqs.getD i default).wait_after_load = req.wait_after_load ∧
      (reqs.getD i default).timeout = req.timeout ∧
      (reqs.getD i default).headers = resolveHeaders req.headers := by
  intro i hi
  rw [normalize_ok_batch hus hn,
    getD_map (mkUrlModel req) us "" default hi]
  exact ⟨rfl, rfl, rfl⟩

/-- Witness for C8 at index 0 of the regression-test batch. -/
theorem shared_parameter_propagation_witness :
    (demoReqs.getD 0 default).wait_after_load =
      demoBatchReq.wait_after_load ∧
    (demoReqs.getD 0 default).timeout = demoBatchReq.timeout ∧
    (demoReqs.getD 0 default).headers =
      resolveHeaders demoBatchReq.headers :=
  shared_parameter_propagation demoFetch demoBatchReq demoUrls demoReqs
    rfl rfl 0 (by decide)

/-- C10: every argument the endpoint passes to the fetch operation is a
fully-constructed per-URL request — a `UrlModel` built from the batch
request, with a resolved, validated url, a positive timeout, a non-negative
wait and a resolved header mapping. -/
theorem fetch_arguments_fully_constructed (f : UrlModel → FetchOutcome)
    (req : MultipleUrlModel) :
    ∀ m ∈ (scrape_page_endpoint f req).fetchCalls,
      ∃ u, m = mkUrlModel req u ∧ m.url = u ∧ isValidUrl m.url = true ∧
        0 < m.timeout ∧ 0 ≤ m.wait_after_load ∧
        m.headers = resolveHeaders req.headers := by
  intro m hm
  obtain ⟨u, hmu, hvalid, hT, hW⟩ := fetchCalls_mem hm
  subst hmu
  exact ⟨u, rfl, rfl, hvalid, hT, hW, rfl⟩

/-- Witness for C10 at the first dispatched request of the regression-test
batch. -/
theorem fetch_arguments_fully_constructed_witness :
    ∃ u, mkUrlModel demoBatchReq "https://example.com/first" =
        mkUrlModel demoBatchReq u ∧
      (mkUrlModel demoBatchReq "https://example.com/first").url = u ∧
      isValidUrl (mkUrlModel demoBatchReq "https://example.com/first").url =
        true ∧
      0 < (mkUrlModel demoBatchReq "https://example.com/first").timeout ∧
      0 ≤ (mkUrlModel demoBatchReq
        "https://example.com/first").wait_after_load ∧
      (mkUrlModel demoBatchReq "https://example.com/first").headers =
        resolveHeaders demoBatchReq.headers :=
  fetch_arguments_fully_constructed demoFetch demoBatchReq
    (mkUrlModel demoBatchReq "https://example.com/first") (by decide)

end PatchrightApp
